import Mathlib

/-!
# Verification of the spii `Function` assembly & evaluation engine

Shallow embedding of `src/source/function.cpp` (namespace `spii`): the
variable/term registries, global-index assignment, the scatter/gather
evaluation pipeline (value, gradient, dense and sparse Hessian, interval),
and the stream serialization format.

Modelling conventions:
* `double` is modelled by `ℚ` (exact arithmetic; the claims under test are
  about which numbers are combined, not about rounding).
* A user pointer `double*` is modelled by a base address `ℕ` into one flat
  user memory `Mem := ℕ → ℚ`.
* The engine is single-threaded here: the repository's default build has
  `USE_OPENMP` undefined, in which case `number_of_threads = 1` and every
  loop in the source runs sequentially exactly as modelled.
* Out-of-range reads of an Eigen/std vector are undefined behaviour in the
  C++; the model totalizes them (`List.getD _ _ 0`) except in the interval
  path, where the bounds are the point of the claim and accesses are
  modelled with explicit checks (`Option`).
* Exceptions are modelled with `Except`/`Option`; `Function::add_term`
  additionally returns the post-exception state, because the C++ `catch`
  block lets already-performed registry mutations survive the throw.
-/

namespace spii

/-- Errors thrown by the engine (`std::runtime_error` messages in the C++). -/
inductive FunctionError where
  | DimensionMismatch
  | ArityMismatch
  | NotFound
  | UnsupportedOperation
  | HessianDisabled
  | FormatMismatch
  | StreamError
  deriving DecidableEq, Repr

/-- User-owned storage: one flat memory of rationals addressed by `ℕ`. -/
def Mem : Type := ℕ → ℚ

/-- A closed interval, for `Interval<double>`. -/
structure IntervalQ where
  lo : ℚ
  hi : ℚ
  deriving DecidableEq, Repr

/-- Interval addition (`Interval::operator+=`): endpointwise. -/
def IntervalQ.add (a b : IntervalQ) : IntervalQ := ⟨a.lo + b.lo, a.hi + b.hi⟩

/-- The `ChangeOfVariables` interface (`spii/change_of_variables.h`):
a reparameterization between the x-space a term sees and the t-space the
solver sees. -/
structure ChangeOfVariables where
  x_dimension : ℕ
  t_dimension : ℕ
  /-- maps a t-space slice (length `t_dimension`) to x-space values. -/
  t_to_x : List ℚ → List ℚ
  /-- maps an x-space slice (length `x_dimension`) to t-space values. -/
  x_to_t : List ℚ → List ℚ
  /-- chain-rule projection: arguments are the current accumulator slice,
  the global-coordinate slice and the user-space gradient row; the result
  replaces the accumulator slice. -/
  update_gradient : List ℚ → List ℚ → List ℚ → List ℚ

/-- The polymorphic `Term` interface (`spii/term.h`), restricted to the
operations the engine calls.  `evalGH` returns the value, the per-argument
gradient rows and the per-argument-pair Hessian blocks
(`fun var0 var1 i j => entry`). -/
structure Term where
  number_of_variables : ℕ
  variable_dimension : ℕ → ℕ
  eval : List (List ℚ) → ℚ
  evalGH : List (List ℚ) → ℚ × List (List ℚ) × (ℕ → ℕ → ℕ → ℕ → ℚ)
  evalInterval : List (List IntervalQ) → IntervalQ
  name : String

instance : Inhabited Term :=
  ⟨{ number_of_variables := 0, variable_dimension := fun _ => 0,
     eval := fun _ => 0, evalGH := fun _ => (0, [], fun _ _ _ _ => 0),
     evalInterval := fun _ => ⟨0, 0⟩, name := "" }⟩

/-- `struct AddedVariable` of `function.cpp` (the `temp_space` scratch is
recomputed functionally, so it is not a field here). -/
structure AddedVariable where
  user_dimension : ℕ
  solver_dimension : ℕ
  /-- base address of the user storage (`double* user_data`). -/
  address : ℕ
  global_index : ℕ
  is_constant : Bool
  cov : Option ChangeOfVariables

instance : Inhabited AddedVariable :=
  ⟨{ user_dimension := 0, solver_dimension := 0, address := 0,
     global_index := 0, is_constant := false, cov := none }⟩

/-- `struct AddedTerm` of `function.cpp`. -/
structure AddedTerm where
  term : Term
  added_variables_indices : List ℕ

/-- The observable state of `Function::Implementation`: the variable and
term registries, the counters and the constant.  `variables_map` is
represented by the `address` field of each entry (the C++ map and vector
are kept in sync, keyed by the user pointer). -/
structure FunctionState where
  vars : List AddedVariable
  number_of_scalars : ℕ
  number_of_constants : ℕ
  constant : ℚ
  terms : List AddedTerm
  hessian_is_enabled : Bool

/-- `Function::Implementation::clear()`. -/
def emptyFunction : FunctionState :=
  { vars := [], number_of_scalars := 0, number_of_constants := 0,
    constant := 0, terms := [], hessian_is_enabled := true }

/-- Lookup in `variables_map` (`variables_map.find(variable)`). -/
def findVariable (f : FunctionState) (address : ℕ) : Option ℕ :=
  f.vars.findIdx? (fun v => v.address == address)

/-- Replace the element at index `i` (used for in-place mutation of one
registry entry); out-of-range indices leave the list unchanged. -/
def modifyAt : List α → ℕ → (α → α) → List α
  | [], _, _ => []
  | a :: l, 0, g => g a :: l
  | a :: l, i + 1, g => a :: modifyAt l i g

/-- `Function::Implementation::add_variable_internal`.  A known address is
checked for dimension/transform compatibility and gets its transform
replaced; an unknown address is appended with a fresh
`global_index = number_of_scalars`. -/
def add_variable_internal (f : FunctionState) (address : ℕ) (dimension : ℕ)
    (cov : Option ChangeOfVariables) : Except FunctionError FunctionState :=
  match findVariable f address with
  | some vi =>
    let v := f.vars.getD vi default
    if v.user_dimension ≠ dimension then
      .error .DimensionMismatch
    else
      match cov with
      | none => .ok { f with vars := modifyAt f.vars vi (fun v => { v with cov := none }) }
      | some c =>
        if v.user_dimension ≠ c.x_dimension then .error .DimensionMismatch
        else if v.solver_dimension ≠ c.t_dimension then .error .DimensionMismatch
        else .ok { f with vars := modifyAt f.vars vi (fun v => { v with cov := some c }) }
  | none =>
    match cov with
    | some c =>
      if dimension ≠ c.x_dimension then .error .DimensionMismatch
      else
        .ok { f with
              vars := f.vars ++
                [{ user_dimension := c.x_dimension, solver_dimension := c.t_dimension,
                   address := address, global_index := f.number_of_scalars,
                   is_constant := false, cov := some c }],
              number_of_scalars := f.number_of_scalars + c.t_dimension }
    | none =>
      .ok { f with
            vars := f.vars ++
              [{ user_dimension := dimension, solver_dimension := dimension,
                 address := address, global_index := f.number_of_scalars,
                 is_constant := false, cov := none }],
            number_of_scalars := f.number_of_scalars + dimension }

/-- `Function::add_variable` (public overload without a transform). -/
def add_variable (f : FunctionState) (address : ℕ) (dimension : ℕ) :
    Except FunctionError FunctionState :=
  add_variable_internal f address dimension none

/-- First re-indexing pass of `set_constant`: assign contiguous global
indices, starting at `acc`, to every non-constant variable; returns the
updated list and the final count (`number_of_scalars`). -/
def reindexFree (acc : ℕ) : List AddedVariable → List AddedVariable × ℕ
  | [] => ([], acc)
  | v :: rest =>
    if v.is_constant then
      let (r, n) := reindexFree acc rest
      (v :: r, n)
    else
      let (r, n) := reindexFree (acc + v.solver_dimension) rest
      ({ v with global_index := acc } :: r, n)

/-- Second re-indexing pass of `set_constant`: assign contiguous indices,
offset by the free-scalar count `ns`, to every constant variable; returns
the updated list and the final count (`number_of_constants`). -/
def reindexConst (ns : ℕ) (acc : ℕ) : List AddedVariable → List AddedVariable × ℕ
  | [] => ([], acc)
  | v :: rest =>
    if v.is_constant then
      let (r, n) := reindexConst ns (acc + v.solver_dimension) rest
      ({ v with global_index := ns + acc } :: r, n)
    else
      let (r, n) := reindexConst ns acc rest
      (v :: r, n)

/-- The full re-indexing performed at the end of `set_constant`. -/
def reindex (f : FunctionState) : FunctionState :=
  let (vs1, ns) := reindexFree 0 f.vars
  let (vs2, nc) := reindexConst ns 0 vs1
  { f with vars := vs2, number_of_scalars := ns, number_of_constants := nc }

/-- `Function::Implementation::set_constant`: flip the flag of the
variable registered at `address`, then recompute every global index. -/
def set_constant (f : FunctionState) (address : ℕ) (is_constant : Bool) :
    Except FunctionError FunctionState :=
  match findVariable f address with
  | none => .error .NotFound
  | some vi =>
    .ok (reindex { f with
                   vars := modifyAt f.vars vi (fun v => { v with is_constant := is_constant }) })

/-- The argument-binding loop of `Function::add_term`: walk the argument
addresses at positions `k, k+1, ...`; auto-register unseen addresses with
the term-declared dimension, reject dimension mismatches.  On error the
returned state keeps every registry mutation already performed (the C++
`catch` block only pops the half-built term). -/
def bindLoop (term : Term) (f : FunctionState) (k : ℕ) :
    List ℕ → Except (FunctionState × FunctionError) (FunctionState × List ℕ)
  | [] => .ok (f, [])
  | a :: rest =>
    match findVariable f a with
    | some vi =>
      if (f.vars.getD vi default).user_dimension ≠ term.variable_dimension k then
        .error (f, .DimensionMismatch)
      else
        match bindLoop term f (k + 1) rest with
        | .error e => .error e
        | .ok (f', idxs) => .ok (f', vi :: idxs)
    | none =>
      match add_variable_internal f a (term.variable_dimension k) none with
      | .error e => .error (f, e)
      | .ok f1 =>
        let vi := (findVariable f1 a).getD 0
        match bindLoop term f1 (k + 1) rest with
        | .error e => .error e
        | .ok (f', idxs) => .ok (f', vi :: idxs)

/-- `Function::add_term`.  The C++ emplaces the `AddedTerm` before the
binding loop and pops it again in the `catch` block, so on failure the
term list is net unchanged while variable registrations made before the
failing argument survive; the result is the state observable when the
exception surfaces, paired with the error if one was thrown. -/
def add_term (f : FunctionState) (term : Term) (args : List ℕ) :
    FunctionState × Option FunctionError :=
  if term.number_of_variables ≠ args.length then
    (f, some .ArityMismatch)
  else
    match bindLoop term f 0 args with
    | .error (f', e) => (f', some e)
    | .ok (f', idxs) =>
      ({ f' with terms := f'.terms ++ [{ term := term, added_variables_indices := idxs }] }, none)

/-! ## The scalar evaluation pipeline -/

/-- One variable's part of `Function::Implementation::copy_global_to_local`:
compute the variable's `temp_space` from the global vector `x` (through
`t_to_x` for a transformed variable) or, for a constant variable, from its
own user storage. -/
def scatterVariable (x : List ℚ) (mem : Mem) (v : AddedVariable) : List ℚ :=
  if v.is_constant = false then
    match v.cov with
    | none => (List.range v.user_dimension).map (fun i => x.getD (v.global_index + i) 0)
    | some c => (c.t_to_x ((x.drop v.global_index).take c.t_dimension)).take v.user_dimension
  else
    (List.range v.user_dimension).map (fun i => mem (v.address + i))

/-- `Function::Implementation::copy_global_to_local`. -/
def copy_global_to_local (x : List ℚ) (mem : Mem) (vars : List AddedVariable) :
    List (List ℚ) :=
  vars.map (scatterVariable x mem)

/-- The per-term argument pointers (`AddedTerm::temp_variables`), resolved
against the local scratch buffers. -/
def termArgs (locals : List (List ℚ)) (t : AddedTerm) : List (List ℚ) :=
  t.added_variables_indices.map (fun vi => locals.getD vi [])

/-- `Function::Implementation::evaluate_from_local_storage`:
`constant + Σ term.evaluate(temp_variables)`. -/
def evaluate_from_local_storage (f : FunctionState) (locals : List (List ℚ)) : ℚ :=
  f.terms.foldl (fun value t => value + t.term.eval (termArgs locals t)) f.constant

/-- `Function::evaluate(const Eigen::VectorXd& x)`. -/
def Function.evaluate (f : FunctionState) (mem : Mem) (x : List ℚ) : ℚ :=
  evaluate_from_local_storage f (copy_global_to_local x mem f.vars)

/-- Add `q` to entry `p` of the accumulator (`storage[p] += q`). -/
def addAt (storage : List ℚ) (p : ℕ) (q : ℚ) : List ℚ :=
  modifyAt storage p (fun a => a + q)

/-- `storage[gi + i] += row[i]` for `i < dim` (the no-transform
gradient scatter of both evaluate overloads). -/
def addRow (storage : List ℚ) (gi : ℕ) (row : List ℚ) (dim : ℕ) : List ℚ :=
  (List.range dim).foldl (fun st i => addAt st (gi + i) (row.getD i 0)) storage

/-- Overwrite `storage[p + i]` with `vals[i]`. -/
def writeVals (storage : List ℚ) (p : ℕ) (vals : List ℚ) : List ℚ :=
  (List.range vals.length).foldl (fun st i => modifyAt st (p + i) (fun _ => vals.getD i 0)) storage

/-- Gradient scatter for one bound variable in the dense-Hessian
`Implementation::evaluate`: skip constants, plain add without a transform,
chain-rule `update_gradient` with one. -/
def scatterVarGradDense (x : List ℚ) (ns : ℕ) (storage : List ℚ)
    (v : AddedVariable) (row : List ℚ) : List ℚ :=
  if v.is_constant then storage
  else
    match v.cov with
    | none => addRow storage v.global_index row v.user_dimension
    | some c =>
      if v.global_index < ns then
        writeVals storage v.global_index
          (c.update_gradient
            ((storage.drop v.global_index).take c.t_dimension)
            ((x.drop v.global_index).take c.t_dimension)
            row)
      else storage

/-- Gradient scatter for one bound variable in the sparse-Hessian
`Implementation::evaluate`.  The transform case is unreachable there: the
C++ throws before scattering, which the pipeline below models by checking
`hasNonConstCovBoundVar` up front. -/
def scatterVarGradSparse (storage : List ℚ) (v : AddedVariable) (row : List ℚ) : List ℚ :=
  if v.is_constant then storage
  else
    match v.cov with
    | none => addRow storage v.global_index row v.user_dimension
    | some _ => storage

/-- One term's contribution to the value and the gradient accumulator
(the body of the parallel loop, single thread), parameterized by the
per-variable scatter. -/
def termGradStep (f : FunctionState)
    (scatter : List ℚ → AddedVariable → List ℚ → List ℚ)
    (locals : List (List ℚ)) (acc : ℚ × List ℚ) (t : AddedTerm) : ℚ × List ℚ :=
  let r := t.term.evalGH (termArgs locals t)
  let storage := (t.added_variables_indices.enum).foldl
    (fun st (p : ℕ × ℕ) =>
      scatter st (f.vars.getD p.2 default) ((r.2.1).getD p.1 []))
    acc.2
  (acc.1 + r.1, storage)

/-- Whether some term binds a non-constant variable carrying a change of
variables: exactly the condition under which both Hessian-producing
`evaluate` overloads throw `"Change of variables not supported"`. -/
def hasNonConstCovBoundVar (f : FunctionState) : Bool :=
  f.terms.any (fun t => t.added_variables_indices.any (fun vi =>
    let v := f.vars.getD vi default
    !v.is_constant && v.cov.isSome))

/-- A dense matrix, as a total function on coordinates. -/
def MatQ : Type := ℕ → ℕ → ℚ

def zeroMat : MatQ := fun _ _ => 0

/-- `M(r, c) += q` (`hessian->coeffRef(r, c) += ...`). -/
def addEntry (M : MatQ) (r c : ℕ) (q : ℚ) : MatQ :=
  fun r' c' => if r' = r ∧ c' = c then M r' c' + q else M r' c'

/-- One term's dense-Hessian write-back: for every ordered pair of
non-constant bound variables, add the term's Hessian block into the global
sub-block at their global offsets. -/
def termDenseHessianAdd (f : FunctionState) (t : AddedTerm)
    (H : ℕ → ℕ → ℕ → ℕ → ℚ) (M : MatQ) : MatQ :=
  (List.range t.term.number_of_variables).foldl (fun M var0 =>
    let v0 := f.vars.getD (t.added_variables_indices.getD var0 0) default
    if v0.is_constant then M
    else
      (List.range t.term.number_of_variables).foldl (fun M var1 =>
        let v1 := f.vars.getD (t.added_variables_indices.getD var1 0) default
        if v1.is_constant then M
        else
          (List.range (t.term.variable_dimension var0)).foldl (fun M i =>
            (List.range (t.term.variable_dimension var1)).foldl (fun M j =>
              addEntry M (i + v0.global_index) (j + v1.global_index) (H var0 var1 i j)) M) M)
        M)
    M

/-- One term's sparse-Hessian triplets, pushed in the same loop order as
the dense write-back. -/
def termTriplets (f : FunctionState) (t : AddedTerm)
    (H : ℕ → ℕ → ℕ → ℕ → ℚ) : List (ℕ × ℕ × ℚ) :=
  (List.range t.term.number_of_variables).flatMap (fun var0 =>
    let v0 := f.vars.getD (t.added_variables_indices.getD var0 0) default
    if v0.is_constant then []
    else
      (List.range t.term.number_of_variables).flatMap (fun var1 =>
        let v1 := f.vars.getD (t.added_variables_indices.getD var1 0) default
        if v1.is_constant then []
        else
          (List.range (t.term.variable_dimension var0)).flatMap (fun i =>
            (List.range (t.term.variable_dimension var1)).map (fun j =>
              (i + v0.global_index, j + v1.global_index, H var0 var1 i j)))))

/-- The Hessian blocks a term reports at the current point
(`AddedTerm::hessian` after the evaluation loop). -/
def termHessianBlocks (locals : List (List ℚ)) (t : AddedTerm) : ℕ → ℕ → ℕ → ℕ → ℚ :=
  (t.term.evalGH (termArgs locals t)).2.2

/-- `Function::Implementation::evaluate` with a dense Hessian: value,
global gradient (the first `number_of_scalars` entries of the thread
accumulator) and the assembled `n × n` matrix.  Errors mirror the two
throws: Hessian disabled, and a transform on a non-constant bound
variable. -/
def evaluateDense (f : FunctionState) (mem : Mem) (x : List ℚ) :
    Except FunctionError (ℚ × List ℚ × MatQ) :=
  if f.hessian_is_enabled = false then .error .HessianDisabled
  else
    let locals := copy_global_to_local x mem f.vars
    let vg := f.terms.foldl (termGradStep f (scatterVarGradDense x f.number_of_scalars) locals)
      (f.constant, List.replicate (f.number_of_scalars + f.number_of_constants) 0)
    if hasNonConstCovBoundVar f then .error .UnsupportedOperation
    else
      .ok (vg.1, vg.2.take f.number_of_scalars,
           f.terms.foldl (fun M t => termDenseHessianAdd f t (termHessianBlocks locals t) M) zeroMat)

/-- `Function::Implementation::evaluate` with a sparse Hessian: value,
global gradient and the raw triplet list (coalescing is Eigen's
`setFromTriplets`, modelled by `coalesce` below). -/
def evaluateSparse (f : FunctionState) (mem : Mem) (x : List ℚ) :
    Except FunctionError (ℚ × List ℚ × List (ℕ × ℕ × ℚ)) :=
  if f.hessian_is_enabled = false then .error .HessianDisabled
  else
    let locals := copy_global_to_local x mem f.vars
    if hasNonConstCovBoundVar f then .error .UnsupportedOperation
    else
      let vg := f.terms.foldl (termGradStep f scatterVarGradSparse locals)
        (f.constant, List.replicate (f.number_of_scalars + f.number_of_constants) 0)
      .ok (vg.1, vg.2.take f.number_of_scalars,
           f.terms.flatMap (fun t => termTriplets f t (termHessianBlocks locals t)))

/-- The entry of the coalesced sparse matrix at `(i, j)`: the sum of all
triplet values with those coordinates (`setFromTriplets` semantics). -/
def coalesce (ts : List (ℕ × ℕ × ℚ)) (i j : ℕ) : ℚ :=
  (ts.map (fun p => if p.1 = i ∧ p.2.1 = j then p.2.2 else 0)).sum

/-! ## The interval evaluation path -/

/-- The pointer-gathering loop of the interval `evaluate`
(`scratch_space.push_back(&x[global_index])`, position `k` onward,
followed by the term reading its declared number of intervals starting at
each pointer).  `none` models an out-of-range access of the input
vector. -/
def gatherLoop (f : FunctionState) (x : List IntervalQ) (term : Term) :
    ℕ → List ℕ → Option (List (List IntervalQ))
  | _, [] => some []
  | k, vi :: rest =>
    let v := f.vars.getD vi default
    let dim := term.variable_dimension k
    if v.global_index < x.length ∧ v.global_index + dim ≤ x.length then
      match gatherLoop f x term (k + 1) rest with
      | none => none
      | some tl => some (((x.drop v.global_index).take dim) :: tl)
    else none

/-- Gather the interval arguments for one term binding. -/
def gatherTermIntervals (f : FunctionState) (x : List IntervalQ) (t : AddedTerm) :
    Option (List (List IntervalQ)) :=
  gatherLoop f x t.term 0 t.added_variables_indices

/-- One term of the interval sum. -/
def evalTermInterval (f : FunctionState) (x : List IntervalQ) (t : AddedTerm) :
    Option IntervalQ :=
  (gatherTermIntervals f x t).map t.term.evalInterval

/-- `Function::Implementation::evaluate(const std::vector<Interval<double>>& x)`:
`constant + Σ term.evaluate_interval(...)`, with `none` when any gather
goes out of range. -/
def evaluateInterval (f : FunctionState) (x : List IntervalQ) : Option IntervalQ :=
  f.terms.foldl
    (fun acc t => do
      let a ← acc
      let tv ← evalTermInterval f x t
      pure (a.add tv))
    (some ⟨f.constant, f.constant⟩)

/-! ## Serialization

The stream is modelled structurally: the magic header, the version and the
compiler-type fingerprint always match within one build, so they are
omitted; the remaining payload is kept field by field in the order the
C++ writes it. -/

/-- One per-term record of the stream: type tag, arity, the list of
numbers the write loop emits for the bound variables, and the term's
opaque self-serialization (modelled as the term itself). -/
structure TermRecord where
  name : String
  arity : ℕ
  offsets : List ℕ
  blob : Term

/-- The payload of `Function::write_to_stream`. -/
structure SerializedFunction where
  num_terms : ℕ
  num_variables : ℕ
  num_scalars : ℕ
  constant : ℚ
  /-- the user dimensions, sorted by global index. -/
  variable_dimensions : List ℕ
  /-- the current global coordinate vector (solver space). -/
  x : List ℚ
  term_records : List TermRecord

/-- Insertion into a list of pairs sorted by first component
(`std::sort` on `(global_index, user_dimension)` pairs). -/
def insertSorted (p : ℕ × ℕ) : List (ℕ × ℕ) → List (ℕ × ℕ)
  | [] => [p]
  | q :: rest => if p.1 ≤ q.1 then p :: q :: rest else q :: insertSorted p rest

def sortByFirst (l : List (ℕ × ℕ)) : List (ℕ × ℕ) :=
  l.foldr insertSorted []

/-- `Function::Implementation::copy_user_to_global`: pack the user values
of every non-constant variable (through `x_to_t` when transformed) into a
fresh global vector of `number_of_scalars` entries.  The C++ leaves
unwritten entries uninitialized; the model zero-fills them. -/
def copy_user_to_global (f : FunctionState) (mem : Mem) : List ℚ :=
  f.vars.foldl
    (fun x v =>
      if v.is_constant then x
      else
        match v.cov with
        | none =>
          writeVals x v.global_index
            ((List.range v.user_dimension).map (fun i => mem (v.address + i)))
        | some c =>
          writeVals x v.global_index
            (c.x_to_t ((List.range v.user_dimension).map (fun i => mem (v.address + i)))))
    (List.replicate f.number_of_scalars 0)

/-- `Function::write_to_stream`.  Fails with `UnsupportedOperation` when
any variable carries a change of variables.  Note the per-term loop of the
C++ emits the entries of `added_variables_indices` directly
(`for (auto global_index : added_term.added_variables_indices) out << global_index`),
i.e. positions in the variable registry. -/
def write_to_stream (f : FunctionState) (mem : Mem) :
    Except FunctionError SerializedFunction :=
  if f.vars.any (fun v => v.cov.isSome) then .error .UnsupportedOperation
  else
    .ok { num_terms := f.terms.length,
          num_variables := f.vars.length,
          num_scalars := f.number_of_scalars,
          constant := f.constant,
          variable_dimensions :=
            (sortByFirst (f.vars.map (fun v => (v.global_index, v.user_dimension)))).map (·.2),
          x := copy_user_to_global f mem,
          term_records := f.terms.map (fun t =>
            { name := t.term.name,
              arity := t.added_variables_indices.length,
              offsets := t.added_variables_indices,
              blob := t.term }) }

/-- The variable-registration loop of `read_from_stream`: register each
recorded dimension at the next contiguous offset of the fresh backing
array (`&user_space->at(current_var)` is modelled by the address
`current_var`). -/
def registerVars : FunctionState → ℕ → List ℕ →
    Except FunctionError (FunctionState × ℕ)
  | f, cur, [] => .ok (f, cur)
  | f, cur, d :: rest =>
    match add_variable f cur d with
    | .error e => .error e
    | .ok f' => registerVars f' (cur + d) rest

/-- The term-reconstruction loop of `read_from_stream`: create each term
through the factory and rebind it at the recorded offsets, which index the
backing array (`&user_space->at(offset)`); an offset outside the array
raises (`std::vector::at`). -/
def addTerms (factory : String → Term → Term) (num_scalars : ℕ) :
    FunctionState → List TermRecord → Except FunctionError FunctionState
  | f, [] => .ok f
  | f, r :: rest =>
    if r.offsets.all (· < num_scalars) then
      match add_term f (factory r.name r.blob) r.offsets with
      | (_, some e) => .error e
      | (f', none) => addTerms factory num_scalars f' rest
    else .error .StreamError

/-- `Function::read_from_stream`: clear, re-register variables with their
recorded dimensions at contiguous offsets, verify the offset bookkeeping
matches the recorded scalar count, restore the scalar values (returned as
the contents of the backing array) and reconstruct every term. -/
def read_from_stream (s : SerializedFunction)
    (factory : String → Term → Term) :
    Except FunctionError (FunctionState × List ℚ) :=
  let f0 := { emptyFunction with constant := s.constant }
  match registerVars f0 0 s.variable_dimensions with
  | .error e => .error e
  | .ok (f1, cur) =>
    if cur ≠ s.num_scalars then .error .FormatMismatch
    else
      match addTerms factory s.num_scalars f1 s.term_records with
      | .error e => .error e
      | .ok f2 => .ok (f2, s.x)

/-! ## Concrete instances used to exercise the claims -/

/-- Is an `Except` a success? -/
def isOkB : Except FunctionError α → Bool
  | .ok _ => true
  | .error _ => false

/-- Value component of a dense evaluation result. -/
def denseValue (e : Except FunctionError (ℚ × List ℚ × MatQ)) : ℚ :=
  match e with
  | .ok r => r.1
  | .error _ => 0

/-- Gradient component of a dense evaluation result. -/
def denseGradient (e : Except FunctionError (ℚ × List ℚ × MatQ)) : List ℚ :=
  match e with
  | .ok r => r.2.1
  | .error _ => []

/-- One Hessian entry of a dense evaluation result. -/
def denseEntry (e : Except FunctionError (ℚ × List ℚ × MatQ)) (i j : ℕ) : ℚ :=
  match e with
  | .ok r => r.2.2 i j
  | .error _ => 0

/-- The term `f(x) = x0^2 + x1^2` on one 2-dimensional variable, with its
gradient `(2 x0, 2 x1)` and Hessian `diag(2, 2)`. -/
def sumSquaresTerm : Term :=
  { number_of_variables := 1,
    variable_dimension := fun _ => 2,
    eval := fun args =>
      let a := args.getD 0 []
      a.getD 0 0 * a.getD 0 0 + a.getD 1 0 * a.getD 1 0,
    evalGH := fun args =>
      let a := args.getD 0 []
      (a.getD 0 0 * a.getD 0 0 + a.getD 1 0 * a.getD 1 0,
       [[2 * a.getD 0 0, 2 * a.getD 1 0]],
       fun _ _ i j => if i = j then 2 else 0),
    evalInterval := fun _ => ⟨0, 0⟩,
    name := "sumSquares" }

/-- The example function: one 2-scalar free variable `x` at address 0,
the single term `sumSquaresTerm` bound to it, zero constant. -/
def exampleF : FunctionState :=
  { vars := [{ user_dimension := 2, solver_dimension := 2, address := 0,
               global_index := 0, is_constant := false, cov := none }],
    number_of_scalars := 2, number_of_constants := 0, constant := 0,
    terms := [{ term := sumSquaresTerm, added_variables_indices := [0] }],
    hessian_is_enabled := true }

/-- An arbitrary fixed user memory. -/
def exampleMem : Mem := fun _ => 0

/-! ## C1: the evaluation contract of `evaluate(x)` -/

/-- The scatter step as the specification words it: a non-constant
variable's scratch is filled from its slice of the global vector (through
the transform's `t_to_x` when a transform is present, else plain copy); a
constant variable's scratch is filled from its own user storage, ignoring
the global vector. -/
def specScatterVariable (x : List ℚ) (mem : Mem) (v : AddedVariable) : List ℚ :=
  if v.is_constant then
    (List.range v.user_dimension).map (fun i => mem (v.address + i))
  else
    match v.cov with
    | some c => (c.t_to_x ((x.drop v.global_index).take c.t_dimension)).take v.user_dimension
    | none => (List.range v.user_dimension).map (fun i => x.getD (v.global_index + i) 0)

/-- The value of `evaluate(x)` as the specification words it: the stored
constant plus the sum, over all term bindings, of the term evaluated on
the scattered per-variable scratch. -/
def specValueFormula (f : FunctionState) (mem : Mem) (x : List ℚ) : ℚ :=
  f.constant +
    (f.terms.map (fun t =>
      t.term.eval (t.added_variables_indices.map (fun vi =>
        specScatterVariable x mem (f.vars.getD vi default))))).sum

lemma specScatterVariable_eq (x : List ℚ) (mem : Mem) (v : AddedVariable) :
    scatterVariable x mem v = specScatterVariable x mem v := by
  unfold scatterVariable specScatterVariable
  cases h : v.is_constant <;> cases hc : v.cov <;> simp [h, hc]

lemma specScatterVariable_default (x : List ℚ) (mem : Mem) :
    specScatterVariable x mem default = [] := by
  simp [specScatterVariable, default, List.range_zero]

lemma locals_getD (x : List ℚ) (mem : Mem) (vars : List AddedVariable) (vi : ℕ) :
    (copy_global_to_local x mem vars).getD vi [] =
      specScatterVariable x mem (vars.getD vi default) := by
  unfold copy_global_to_local
  rcases h : vars[vi]? with _ | v
  · simp [List.getD_eq_getElem?_getD, List.getElem?_map, h, specScatterVariable_default]
  · simp [List.getD_eq_getElem?_getD, List.getElem?_map, h, specScatterVariable_eq]

lemma foldl_add_eq_sum (g : α → ℚ) (l : List α) (c : ℚ) :
    l.foldl (fun acc t => acc + g t) c = c + (l.map g).sum := by
  induction l generalizing c with
  | nil => simp
  | cons a l ih => simp [ih, add_assoc]

/-- C1.  `evaluate(x)` returns the stored constant plus the sum over all
term bindings of the term evaluated on the scattered per-variable scratch
(non-constant variables read their slice of `x`, through `t_to_x` when
transformed; constant variables read their own user storage); and on the
concrete scenario — one 2-scalar variable, the single term
`f(x) = x0^2 + x1^2`, zero constant — evaluation at `(3, 4)` yields
value `25`, gradient `(6, 8)` and dense Hessian `diag(2, 2)`. -/
theorem evaluate_is_constant_plus_scattered_term_sum :
    (∀ (f : FunctionState) (mem : Mem) (x : List ℚ),
        Function.evaluate f mem x = specValueFormula f mem x) ∧
    Function.evaluate exampleF exampleMem [3, 4] = 25 ∧
    denseValue (evaluateDense exampleF exampleMem [3, 4]) = 25 ∧
    denseGradient (evaluateDense exampleF exampleMem [3, 4]) = [6, 8] ∧
    denseEntry (evaluateDense exampleF exampleMem [3, 4]) 0 0 = 2 ∧
    denseEntry (evaluateDense exampleF exampleMem [3, 4]) 0 1 = 0 ∧
    denseEntry (evaluateDense exampleF exampleMem [3, 4]) 1 0 = 0 ∧
    denseEntry (evaluateDense exampleF exampleMem [3, 4]) 1 1 = 2 := by
  refine ⟨fun f mem x => ?_, ?_, ?_, ?_, ?_, ?_, ?_, ?_⟩
  · unfold Function.evaluate evaluate_from_local_storage specValueFormula
    rw [foldl_add_eq_sum]
    congr 1
    congr 1
    apply List.map_congr_left
    intro t _
    congr 1
    unfold termArgs
    apply List.map_congr_left
    intro vi _
    exact locals_getD x mem f.vars vi
  all_goals
    norm_num [Function.evaluate, evaluate_from_local_storage, evaluateDense,
      denseValue, denseGradient, denseEntry, copy_global_to_local, scatterVariable,
      termArgs, termGradStep, scatterVarGradDense, hasNonConstCovBoundVar,
      termDenseHessianAdd, termHessianBlocks, addEntry, zeroMat, addRow, addAt,
      modifyAt, exampleF, exampleMem, sumSquaresTerm, List.range_succ,
      List.replicate, List.set, List.take]

/-! ## C6/C7: the global-index invariant of `set_constant` -/

/-- Sum of the solver dimensions of the non-constant variables. -/
def freeScalarSum : List AddedVariable → ℕ
  | [] => 0
  | v :: rest => if v.is_constant then freeScalarSum rest
                 else v.solver_dimension + freeScalarSum rest

/-- Sum of the solver dimensions of the constant variables. -/
def constScalarSum : List AddedVariable → ℕ
  | [] => 0
  | v :: rest => if v.is_constant then v.solver_dimension + constScalarSum rest
                 else constScalarSum rest

/-- In registry order, the non-constant variables occupy contiguous global
index ranges starting at `acc`. -/
def freeIndexedB : ℕ → List AddedVariable → Bool
  | _, [] => true
  | acc, v :: rest =>
    if v.is_constant then freeIndexedB acc rest
    else v.global_index == acc && freeIndexedB (acc + v.solver_dimension) rest

/-- In registry order, the constant variables occupy contiguous global
index ranges starting at `ns + acc`. -/
def constIndexedB (ns : ℕ) : ℕ → List AddedVariable → Bool
  | _, [] => true
  | acc, v :: rest =>
    if v.is_constant then
      v.global_index == ns + acc && constIndexedB ns (acc + v.solver_dimension) rest
    else constIndexedB ns acc rest

/-- A registry whose indexing is current: both passes of `set_constant`
would leave it unchanged. -/
def canonicalB (f : FunctionState) : Bool :=
  freeIndexedB 0 f.vars && constIndexedB f.number_of_scalars 0 f.vars &&
    (f.number_of_scalars == freeScalarSum f.vars) &&
    (f.number_of_constants == constScalarSum f.vars)

/-- The two re-indexing passes, fused: free variables are indexed from
`accF`, constant ones from `ns + accC`. -/
def canonicalize (ns : ℕ) (accF accC : ℕ) : List AddedVariable → List AddedVariable
  | [] => []
  | v :: rest =>
    if v.is_constant then
      { v with global_index := ns + accC } :: canonicalize ns accF (accC + v.solver_dimension) rest
    else
      { v with global_index := accF } :: canonicalize ns (accF + v.solver_dimension) accC rest

/-- Forget the global index (the only field re-indexing may change). -/
def stripIdx (v : AddedVariable) : AddedVariable :=
  { v with global_index := 0 }

lemma reindexFree_snd (l : List AddedVariable) : ∀ acc,
    (reindexFree acc l).2 = acc + freeScalarSum l := by
  induction l with
  | nil => intro acc; simp [reindexFree, freeScalarSum]
  | cons v rest ih =>
    intro acc
    by_cases h : v.is_constant <;>
      simp [reindexFree, freeScalarSum, h, ih, Nat.add_assoc, Nat.add_comm]

lemma reindexConst_snd (ns : ℕ) (l : List AddedVariable) : ∀ acc,
    (reindexConst ns acc l).2 = acc + constScalarSum l := by
  induction l with
  | nil => intro acc; simp [reindexConst, constScalarSum]
  | cons v rest ih =>
    intro acc
    by_cases h : v.is_constant <;>
      simp [reindexConst, constScalarSum, h, ih, Nat.add_assoc, Nat.add_comm]

lemma reindex_vars_characterization (l : List AddedVariable) : ∀ ns accF accC,
    (reindexConst ns accC (reindexFree accF l).1).1 = canonicalize ns accF accC l := by
  induction l with
  | nil => intro ns accF accC; simp [reindexFree, reindexConst, canonicalize]
  | cons v rest ih =>
    intro ns accF accC
    by_cases h : v.is_constant <;>
      simp [reindexFree, reindexConst, canonicalize, h, ih]

lemma canonicalize_strip_map (l : List AddedVariable) : ∀ ns accF accC,
    (canonicalize ns accF accC l).map stripIdx = l.map stripIdx := by
  induction l with
  | nil => intro ns accF accC; simp [canonicalize]
  | cons v rest ih =>
    intro ns accF accC
    by_cases h : v.is_constant <;> simp [canonicalize, h, ih, stripIdx]

lemma strip_eq_fields {v w : AddedVariable} (h : stripIdx v = stripIdx w) :
    v.is_constant = w.is_constant ∧ v.solver_dimension = w.solver_dimension ∧
    v.address = w.address ∧
    ∀ n, ({ v with global_index := n } : AddedVariable) = { w with global_index := n } := by
  have h1 := congrArg AddedVariable.is_constant h
  have h2 := congrArg AddedVariable.solver_dimension h
  have h3 := congrArg AddedVariable.address h
  have h4 := fun n =>
    congrArg (fun u : AddedVariable => ({ u with global_index := n } : AddedVariable)) h
  exact ⟨h1, h2, h3, fun n => h4 n⟩

lemma canonicalize_congr : ∀ (l1 l2 : List AddedVariable),
    l1.map stripIdx = l2.map stripIdx →
    ∀ ns accF accC, canonicalize ns accF accC l1 = canonicalize ns accF accC l2
  | [], [], _, _, _, _ => rfl
  | v1 :: r1, v2 :: r2, h, ns, accF, accC => by
    simp only [List.map_cons, List.cons.injEq] at h
    obtain ⟨hc, hd, -, hset⟩ := strip_eq_fields h.1
    cases hb : v1.is_constant
    · have hb2 : v2.is_constant = false := hc ▸ hb
      have hb' : ¬(v1.is_constant = true) := by simp [hb]
      have hb2' : ¬(v2.is_constant = true) := by simp [hb2]
      simp only [canonicalize, if_neg hb', if_neg hb2']
      rw [hset accF, hd, canonicalize_congr r1 r2 h.2]
    · have hb2 : v2.is_constant = true := hc ▸ hb
      simp only [canonicalize, if_pos hb, if_pos hb2]
      rw [hset (ns + accC), hd, canonicalize_congr r1 r2 h.2]

lemma canonicalize_fixed : ∀ (l : List AddedVariable) (ns accF accC : ℕ),
    freeIndexedB accF l = true → constIndexedB ns accC l = true →
    canonicalize ns accF accC l = l
  | [], _, _, _, _, _ => rfl
  | v :: rest, ns, accF, accC, hf, hc => by
    cases hb : v.is_constant
    · have hb' : ¬(v.is_constant = true) := by simp [hb]
      rw [freeIndexedB, if_neg hb'] at hf
      rw [constIndexedB, if_neg hb'] at hc
      have hgi : v.global_index = accF := by
        simpa using ((Bool.and_eq_true _ _).mp hf).1
      simp only [canonicalize, if_neg hb']
      rw [← hgi, canonicalize_fixed rest ns (v.global_index + v.solver_dimension) accC
        (hgi ▸ ((Bool.and_eq_true _ _).mp hf).2) hc]
    · rw [freeIndexedB, if_pos hb] at hf
      rw [constIndexedB, if_pos hb] at hc
      have hgi : v.global_index = ns + accC := by
        simpa using ((Bool.and_eq_true _ _).mp hc).1
      simp only [canonicalize, if_pos hb]
      rw [← hgi, canonicalize_fixed rest ns accF (accC + v.solver_dimension) hf
        ((Bool.and_eq_true _ _).mp hc).2]

lemma freeIndexedB_canonicalize : ∀ (l : List AddedVariable) (ns accF accC : ℕ),
    freeIndexedB accF (canonicalize ns accF accC l) = true
  | [], _, _, _ => rfl
  | v :: rest, ns, accF, accC => by
    by_cases hb : v.is_constant <;>
      simp [canonicalize, freeIndexedB, hb, freeIndexedB_canonicalize rest ns _ _]

lemma constIndexedB_canonicalize : ∀ (l : List AddedVariable) (ns accF accC : ℕ),
    constIndexedB ns accC (canonicalize ns accF accC l) = true
  | [], _, _, _ => rfl
  | v :: rest, ns, accF, accC => by
    by_cases hb : v.is_constant <;>
      simp [canonicalize, constIndexedB, hb, constIndexedB_canonicalize rest ns _ _]

lemma freeScalarSum_strip_congr : ∀ (l1 l2 : List AddedVariable),
    l1.map stripIdx = l2.map stripIdx → freeScalarSum l1 = freeScalarSum l2
  | [], [], _ => rfl
  | v1 :: r1, v2 :: r2, h => by
    simp only [List.map_cons, List.cons.injEq] at h
    obtain ⟨hc, hd, -, -⟩ := strip_eq_fields h.1
    simp [freeScalarSum, hc, hd, freeScalarSum_strip_congr r1 r2 h.2]

lemma reindex_vars (g : FunctionState) :
    (reindex g).vars = canonicalize (freeScalarSum g.vars) 0 0 g.vars ∧
    (reindex g).number_of_scalars = freeScalarSum g.vars := by
  unfold reindex
  constructor
  · simp [reindexFree_snd, reindex_vars_characterization]
  · simp [reindexFree_snd]

lemma freeScalarSum_canonicalize (l : List AddedVariable) (ns accF accC : ℕ) :
    freeScalarSum (canonicalize ns accF accC l) = freeScalarSum l :=
  freeScalarSum_strip_congr _ _ (canonicalize_strip_map l ns accF accC)

/-- C6.  After every successful `set_constant` call the registry is
canonically indexed: the non-constant variables occupy contiguous index
ranges starting at 0, the constant variables occupy a contiguous trailing
block offset by the scalar count, and the scalar count equals the sum of
the solver dimensions of the non-constant variables. -/
theorem set_constant_restores_contiguous_indexing (f : FunctionState) (a : ℕ)
    (b : Bool) (f' : FunctionState) (h : set_constant f a b = .ok f') :
    freeIndexedB 0 f'.vars = true ∧
    constIndexedB f'.number_of_scalars 0 f'.vars = true ∧
    f'.number_of_scalars = freeScalarSum f'.vars := by
  unfold set_constant at h
  rcases hf : findVariable f a with _ | vi
  · rw [hf] at h; exact absurd h (by simp)
  · rw [hf] at h
    simp only [Except.ok.injEq] at h
    subst h
    set g : FunctionState :=
      { f with vars := modifyAt f.vars vi (fun v => { v with is_constant := b }) } with hg
    obtain ⟨hvars, hns⟩ := reindex_vars g
    refine ⟨?_, ?_, ?_⟩
    · rw [hvars]; exact freeIndexedB_canonicalize _ _ _ _
    · rw [hvars, hns]; exact constIndexedB_canonicalize _ _ _ _
    · rw [hvars, hns, freeScalarSum_canonicalize]

/-- Unwrap a registry operation that is known to succeed. -/
def okOr (r : Except FunctionError FunctionState) : FunctionState :=
  match r with
  | .ok g => g
  | .error _ => emptyFunction

/-- A registry with two free variables (dimensions 1 and 2). -/
def togF : FunctionState :=
  { vars := [{ user_dimension := 1, solver_dimension := 1, address := 0,
               global_index := 0, is_constant := false, cov := none },
             { user_dimension := 2, solver_dimension := 2, address := 10,
               global_index := 1, is_constant := false, cov := none }],
    number_of_scalars := 3, number_of_constants := 0, constant := 0,
    terms := [], hessian_is_enabled := true }

/-- `togF` after `set_constant(&v0, true)`. -/
def togF' : FunctionState := okOr (set_constant togF 0 true)

theorem set_constant_restores_contiguous_indexing_witness :
    freeIndexedB 0 togF'.vars = true ∧
    constIndexedB togF'.number_of_scalars 0 togF'.vars = true ∧
    togF'.number_of_scalars = freeScalarSum togF'.vars :=
  set_constant_restores_contiguous_indexing togF 0 true togF' rfl

/-! ## C7: toggling constancy and restoring the registry -/

lemma getD_map (h : α → β) (l : List α) (i : ℕ) (d : α) :
    (l.map h).getD i (h d) = h (l.getD i d) := by
  simp only [List.getD_eq_getElem?_getD, List.getElem?_map]
  cases l[i]? <;> simp

lemma findIdx?_some_spec (p : α → Bool) : ∀ (l : List α) (s i : ℕ),
    List.findIdx? p l s = some i →
    s ≤ i ∧ i - s < l.length ∧ ∀ d, p (l.getD (i - s) d) = true := by
  intro l
  induction l with
  | nil => intro s i h; simp [List.findIdx?_nil] at h
  | cons a rest ih =>
    intro s i h
    rw [List.findIdx?_cons] at h
    by_cases hp : p a = true
    · simp only [hp, if_true, Option.some.injEq] at h
      subst h
      simp [hp]
    · simp only [hp, if_false] at h
      obtain ⟨hs, hlt, hget⟩ := ih (s + 1) i h
      refine ⟨by omega, by simp only [List.length_cons]; omega, fun d => ?_⟩
      have hsub : i - s = (i - (s + 1)) + 1 := by omega
      rw [hsub]
      simpa using hget d

lemma findIdx?_addr_congr : ∀ (l1 l2 : List AddedVariable),
    l1.map (fun v => v.address) = l2.map (fun v => v.address) → ∀ (a s : ℕ),
    List.findIdx? (fun v => v.address == a) l1 s =
      List.findIdx? (fun v => v.address == a) l2 s
  | [], [], _, _, _ => rfl
  | v1 :: r1, v2 :: r2, h, a, s => by
    simp only [List.map_cons, List.cons.injEq] at h
    rw [List.findIdx?_cons, List.findIdx?_cons, h.1,
      findIdx?_addr_congr r1 r2 h.2 a (s + 1)]
  | [], _ :: _, h, _, _ => by simp at h
  | _ :: _, [], h, _, _ => by simp at h

lemma addrMap_of_strip_eq {l1 l2 : List AddedVariable}
    (h : l1.map stripIdx = l2.map stripIdx) :
    l1.map (fun v => v.address) = l2.map (fun v => v.address) := by
  have e1 : l1.map (fun v => v.address) = (l1.map stripIdx).map (fun v => v.address) := by
    rw [List.map_map]; rfl
  have e2 : l2.map (fun v => v.address) = (l2.map stripIdx).map (fun v => v.address) := by
    rw [List.map_map]; rfl
  rw [e1, e2, h]

lemma modifyAt_modifyAt (g g' : α → α) : ∀ (l : List α) (i : ℕ),
    modifyAt (modifyAt l i g) i g' = modifyAt l i (fun a => g' (g a))
  | [], _ => rfl
  | _ :: _, 0 => rfl
  | a :: l, i + 1 => congrArg (a :: ·) (modifyAt_modifyAt g g' l i)

lemma modifyAt_map (g : α → α) (h : α → β) (g' : β → β)
    (hp : ∀ x, h (g x) = g' (h x)) : ∀ (l : List α) (i : ℕ),
    (modifyAt l i g).map h = modifyAt (l.map h) i g'
  | [], _ => rfl
  | a :: l, 0 => by simp [modifyAt, hp]
  | a :: l, i + 1 => by simp [modifyAt, modifyAt_map g h g' hp l i]

lemma modifyAt_id : ∀ (l : List α) (i : ℕ), modifyAt l i (fun a => a) = l
  | [], _ => rfl
  | _ :: _, 0 => rfl
  | a :: l, i + 1 => congrArg (a :: ·) (modifyAt_id l i)

lemma modifyAt_eq_self (g : α → α) (d : α) : ∀ (l : List α) (i : ℕ),
    i < l.length → g (l.getD i d) = l.getD i d → modifyAt l i g = l
  | [], i, hi, _ => by simp at hi
  | a :: l, 0, _, hg => by
    simp only [List.getD_cons_zero] at hg
    simp [modifyAt, hg]
  | a :: l, i + 1, hi, hg => by
    simp only [List.getD_cons_succ] at hg
    simp only [List.length_cons, Nat.add_lt_add_iff_right] at hi
    simp [modifyAt, modifyAt_eq_self g d l i hi hg]

lemma setFlag_eq_self {x : AddedVariable} (hx : x.is_constant = false) :
    ({ x with is_constant := false } : AddedVariable) = x := by
  rw [← hx]

lemma setFlag_roundtrip {x : AddedVariable} (hx : x.is_constant = false) :
    ({ ({ x with is_constant := true } : AddedVariable) with
        is_constant := false } : AddedVariable) = x := by
  cases x with
  | mk ud sd ad gi c cov =>
    replace hx : c = false := hx
    subst hx
    rfl

/-- C7 (amended).  When the registry's indexing is current (`canonicalB`)
and `v` is currently non-constant, `set_constant(v, true)` followed by
`set_constant(v, false)` restores the global scalar count and every
variable's global index (in fact the whole variable registry). -/
theorem set_constant_toggle_restores_canonical
    (f : FunctionState) (a vi : ℕ) (f1 f2 : FunctionState)
    (hcan : canonicalB f = true)
    (hfind : findVariable f a = some vi)
    (hfree : (f.vars.getD vi default).is_constant = false)
    (h1 : set_constant f a true = .ok f1)
    (h2 : set_constant f1 a false = .ok f2) :
    f2.number_of_scalars = f.number_of_scalars ∧ f2.vars = f.vars := by
  have hcan' := hcan
  simp only [canonicalB, Bool.and_eq_true, beq_iff_eq] at hcan'
  obtain ⟨⟨⟨hFI, hCI⟩, hNS⟩, -⟩ := hcan'
  unfold set_constant at h1
  rw [hfind] at h1
  simp only [Except.ok.injEq] at h1
  set m1 : List AddedVariable :=
    modifyAt f.vars vi (fun v => { v with is_constant := true }) with hm1
  obtain ⟨hv1, hn1⟩ := reindex_vars { f with vars := m1 }
  dsimp only at hv1 hn1
  rw [h1] at hv1 hn1
  have hstrip1 : f1.vars.map stripIdx = m1.map stripIdx := by
    rw [hv1]; exact canonicalize_strip_map _ _ _ _
  have haddr_m1 : m1.map (fun v => v.address) = f.vars.map (fun v => v.address) := by
    rw [hm1, modifyAt_map (fun v : AddedVariable => { v with is_constant := true })
      (fun v => v.address) (fun x : ℕ => x) (fun _ => rfl), modifyAt_id]
  have haddr1 : f1.vars.map (fun v => v.address) = f.vars.map (fun v => v.address) := by
    rw [addrMap_of_strip_eq hstrip1, haddr_m1]
  have hfind1 : findVariable f1 a = some vi := by
    unfold findVariable at hfind ⊢
    rw [findIdx?_addr_congr f1.vars f.vars haddr1 a 0]
    exact hfind
  unfold set_constant at h2
  rw [hfind1] at h2
  simp only [Except.ok.injEq] at h2
  set m2 : List AddedVariable :=
    modifyAt f1.vars vi (fun v => { v with is_constant := false }) with hm2
  obtain ⟨hv2, hn2⟩ := reindex_vars { f1 with vars := m2 }
  dsimp only at hv2 hn2
  rw [h2] at hv2 hn2
  have hfind' : List.findIdx? (fun v => v.address == a) f.vars = some vi := hfind
  have hlen : vi < f.vars.length := by
    have := findIdx?_some_spec (fun v => v.address == a) f.vars 0 vi hfind'
    simpa using this.2.1
  have hstrip2 : m2.map stripIdx = f.vars.map stripIdx := by
    rw [hm2, modifyAt_map (fun v : AddedVariable => { v with is_constant := false }) stripIdx
          (fun v : AddedVariable => { v with is_constant := false }) (fun _ => rfl),
        hstrip1, hm1,
        modifyAt_map (fun v : AddedVariable => { v with is_constant := true }) stripIdx
          (fun v : AddedVariable => { v with is_constant := true }) (fun _ => rfl),
        modifyAt_modifyAt]
    apply modifyAt_eq_self _ (stripIdx default)
    · simpa using hlen
    · rw [getD_map stripIdx f.vars vi default]
      have hxflag : (stripIdx (f.vars.getD vi default)).is_constant = false := by
        simpa [stripIdx] using hfree
      exact setFlag_roundtrip hxflag
  have hsum2 : freeScalarSum m2 = f.number_of_scalars := by
    rw [freeScalarSum_strip_congr m2 f.vars hstrip2, ← hNS]
  constructor
  · rw [hn2, hsum2]
  · rw [hv2, hsum2, canonicalize_congr m2 f.vars hstrip2,
      canonicalize_fixed f.vars f.number_of_scalars 0 0 hFI hCI]

/-- `togF'` after `set_constant(&v0, false)`: the toggle round-trip. -/
def togF'' : FunctionState := okOr (set_constant togF' 0 false)

theorem set_constant_toggle_restores_canonical_witness :
    togF''.number_of_scalars = togF.number_of_scalars ∧ togF''.vars = togF.vars :=
  set_constant_toggle_restores_canonical togF 0 0 togF' togF''
    (by decide) (by decide) (by decide) rfl rfl

/-- A state reachable through the public interface whose indexing is
stale: `add_variable(&u, 1)`, `set_constant(&u, true)`,
`add_variable(&w, 1)` leaves both the constant `u` and the fresh `w` with
global index 0. -/
def staleF : FunctionState :=
  okOr (add_variable (okOr (set_constant (okOr (add_variable emptyFunction 0 1)) 0 true)) 10 1)

/-- `staleF` after toggling `w` (address 10) constant and back. -/
def staleToggled : FunctionState :=
  okOr (set_constant (okOr (set_constant staleF 10 true)) 10 false)

/-- C7 counterexample.  In `staleF` the variable at address 0 (not the
toggled one) has global index 0; after `set_constant(&w, true)` followed
by `set_constant(&w, false)` it holds global index 1, so the round-trip
does not restore every other variable's global index (the scalar count,
1, is restored). -/
theorem set_constant_toggle_counterexample :
    isOkB (set_constant staleF 10 true) = true ∧
    isOkB (set_constant (okOr (set_constant staleF 10 true)) 10 false) = true ∧
    staleF.vars.map (fun v => (v.address, v.global_index)) = [(0, 0), (10, 0)] ∧
    staleF.number_of_scalars = 1 ∧
    staleToggled.vars.map (fun v => (v.address, v.global_index)) = [(0, 1), (10, 0)] ∧
    staleToggled.number_of_scalars = 1 := by decide

/-! ## C9: arity mismatch in `add_term` -/

/-- C9.  Binding a term whose declared arity differs from the supplied
argument list length fails with `ArityMismatch` and leaves the term
registry's size (indeed the whole state) unchanged. -/
theorem add_term_arity_mismatch (f : FunctionState) (term : Term) (args : List ℕ)
    (h : args.length ≠ term.number_of_variables) :
    (add_term f term args).2 = some FunctionError.ArityMismatch ∧
    (add_term f term args).1.terms.length = f.terms.length := by
  have h' : term.number_of_variables ≠ args.length := fun e => h e.symm
  unfold add_term
  rw [if_pos h']
  exact ⟨rfl, rfl⟩

theorem add_term_arity_mismatch_witness :
    (add_term emptyFunction sumSquaresTerm []).2 = some FunctionError.ArityMismatch ∧
    (add_term emptyFunction sumSquaresTerm []).1.terms.length =
      emptyFunction.terms.length :=
  add_term_arity_mismatch emptyFunction sumSquaresTerm [] (by decide)

/-! ## C3: what a failing `add_term` leaves behind -/

/-- A term of arity 2 whose arguments are both 1-dimensional. -/
def pairTerm : Term :=
  { number_of_variables := 2, variable_dimension := fun _ => 1,
    eval := fun _ => 0, evalGH := fun _ => (0, [], fun _ _ _ _ => 0),
    evalInterval := fun _ => ⟨0, 0⟩, name := "pair" }

/-- A registry holding one 2-dimensional variable at address 0. -/
def oneVar2F : FunctionState :=
  { vars := [{ user_dimension := 2, solver_dimension := 2, address := 0,
               global_index := 0, is_constant := false, cov := none }],
    number_of_scalars := 2, number_of_constants := 0, constant := 0,
    terms := [], hessian_is_enabled := true }

/-- C3 counterexample.  `add_term(pairTerm, {&fresh, &existing2d})` fails
with `DimensionMismatch` on the second argument, but the fresh variable
auto-registered for the first argument survives: the variable registry
grows from 1 to 2 entries and the scalar count from 2 to 3, so the engine
is not left exactly as it was before the call. -/
theorem add_term_failure_keeps_new_variables :
    (add_term oneVar2F pairTerm [5, 0]).2 = some FunctionError.DimensionMismatch ∧
    oneVar2F.vars.length = 1 ∧
    (add_term oneVar2F pairTerm [5, 0]).1.vars.length = 2 ∧
    oneVar2F.number_of_scalars = 2 ∧
    (add_term oneVar2F pairTerm [5, 0]).1.number_of_scalars = 3 := by decide

/-- What a failing `add_term` does preserve: the term list, every
previously registered variable (as a prefix, indices and all), and the
scalar count never shrinks. -/
def RegistryExtends (f f' : FunctionState) : Prop :=
  f'.terms = f.terms ∧ f.vars <+: f'.vars ∧
    f.number_of_scalars ≤ f'.number_of_scalars

lemma RegistryExtends.rfl (f : FunctionState) : RegistryExtends f f :=
  ⟨Eq.refl _, List.prefix_refl _, Nat.le_refl _⟩

lemma RegistryExtends.trans {f g h : FunctionState}
    (h1 : RegistryExtends f g) (h2 : RegistryExtends g h) : RegistryExtends f h :=
  ⟨h2.1.trans h1.1, h1.2.1.trans h2.2.1, h1.2.2.trans h2.2.2⟩

/-- The state the binding loop leaves behind, whether it fails or not. -/
def bindLoopState :
    Except (FunctionState × FunctionError) (FunctionState × List ℕ) → FunctionState
  | .error (f, _) => f
  | .ok (f, _) => f

lemma bindLoop_extends (term : Term) : ∀ (args : List ℕ) (f : FunctionState) (k : ℕ),
    RegistryExtends f (bindLoopState (bindLoop term f k args))
  | [], f, _ => RegistryExtends.rfl f
  | a :: rest, f, k => by
    rw [bindLoop]
    rcases hf : findVariable f a with _ | vi
    · dsimp only
      rcases hv : add_variable_internal f a (term.variable_dimension k) none with e | f1
      · exact RegistryExtends.rfl f
      · dsimp only
        have hext : RegistryExtends f f1 := by
          unfold add_variable_internal at hv
          rw [hf] at hv
          simp only [Except.ok.injEq] at hv
          subst hv
          exact ⟨Eq.refl _, ⟨_, Eq.refl _⟩, Nat.le_add_right _ _⟩
        have hrest := bindLoop_extends term rest f1 (k + 1)
        rcases hb : bindLoop term f1 (k + 1) rest with ⟨f', err⟩ | ⟨f', idxs⟩
        · rw [hb] at hrest
          dsimp only [bindLoopState] at hrest ⊢
          exact hext.trans hrest
        · rw [hb] at hrest
          dsimp only [bindLoopState] at hrest ⊢
          exact hext.trans hrest
    · dsimp only
      by_cases hd : (f.vars.getD vi default).user_dimension ≠ term.variable_dimension k
      · rw [if_pos hd]
        exact RegistryExtends.rfl f
      · rw [if_neg hd]
        have hrest := bindLoop_extends term rest f (k + 1)
        rcases hb : bindLoop term f (k + 1) rest with ⟨f', err⟩ | ⟨f', idxs⟩
        · rw [hb] at hrest
          dsimp only [bindLoopState] at hrest ⊢
          exact hrest
        · rw [hb] at hrest
          dsimp only [bindLoopState] at hrest ⊢
          exact hrest

/-- C3 (amended).  When `add_term` fails, the term registry is exactly as
before the call and every previously registered variable survives
unchanged (the prior registry is a prefix of the new one), but variables
auto-registered for arguments before the failing one remain registered
and the scalar count may have grown. -/
theorem add_term_failure_partial_rollback (f : FunctionState) (term : Term)
    (args : List ℕ) (h : ((add_term f term args).2).isSome = true) :
    (add_term f term args).1.terms = f.terms ∧
    f.vars <+: (add_term f term args).1.vars ∧
    f.number_of_scalars ≤ (add_term f term args).1.number_of_scalars := by
  unfold add_term
  by_cases ha : term.number_of_variables ≠ args.length
  · rw [if_pos ha]
    exact ⟨Eq.refl _, List.prefix_refl _, Nat.le_refl _⟩
  · rw [if_neg ha]
    have hext := bindLoop_extends term args f 0
    rcases hb : bindLoop term f 0 args with ⟨f', err⟩ | ⟨f', idxs⟩
    · rw [hb] at hext
      dsimp only [bindLoopState] at hext
      exact hext
    · exfalso
      unfold add_term at h
      rw [if_neg ha, hb] at h
      simp at h

theorem add_term_failure_partial_rollback_witness :
    (add_term oneVar2F pairTerm [5, 0]).1.terms = oneVar2F.terms ∧
    oneVar2F.vars <+: (add_term oneVar2F pairTerm [5, 0]).1.vars ∧
    oneVar2F.number_of_scalars ≤ (add_term oneVar2F pairTerm [5, 0]).1.number_of_scalars :=
  add_term_failure_partial_rollback oneVar2F pairTerm [5, 0] (by decide)

/-! ## C8: change of variables versus Hessian computation -/

/-- The identity reparameterization on one scalar. -/
def idCov : ChangeOfVariables :=
  { x_dimension := 1, t_dimension := 1,
    t_to_x := fun l => l, x_to_t := fun l => l,
    update_gradient := fun acc _ row => [acc.getD 0 0 + row.getD 0 0] }

/-- The term `f(x) = x0` on one 1-dimensional variable. -/
def oneDTerm : Term :=
  { number_of_variables := 1, variable_dimension := fun _ => 1,
    eval := fun args => (args.getD 0 []).getD 0 0,
    evalGH := fun args => ((args.getD 0 []).getD 0 0, [[1]], fun _ _ _ _ => 0),
    evalInterval := fun args => (args.getD 0 []).getD 0 ⟨0, 0⟩,
    name := "identity" }

/-- C8 (amended).  When some term binds a *non-constant* variable carrying
a change of variables and Hessians are enabled, requesting a dense or a
sparse Hessian from `evaluate` fails with `UnsupportedOperation`. -/
theorem evaluate_hessian_with_transform_errors (f : FunctionState) (mem : Mem)
    (x : List ℚ) (t : AddedTerm) (vi : ℕ)
    (ht : t ∈ f.terms) (hvi : vi ∈ t.added_variables_indices)
    (hnc : (f.vars.getD vi default).is_constant = false)
    (hcov : (f.vars.getD vi default).cov.isSome = true)
    (hen : f.hessian_is_enabled = true) :
    evaluateDense f mem x = .error FunctionError.UnsupportedOperation ∧
    evaluateSparse f mem x = .error FunctionError.UnsupportedOperation := by
  have hany : hasNonConstCovBoundVar f = true := by
    unfold hasNonConstCovBoundVar
    rw [List.any_eq_true]
    refine ⟨t, ht, ?_⟩
    rw [List.any_eq_true]
    refine ⟨vi, hvi, ?_⟩
    show (!(f.vars.getD vi default).is_constant &&
      (f.vars.getD vi default).cov.isSome) = true
    rw [hnc, hcov]
    rfl
  constructor
  · unfold evaluateDense
    simp [hen, hany]
  · unfold evaluateSparse
    simp [hen, hany]

/-- One non-constant 1-dimensional variable carrying `idCov`, bound to one
term; Hessians enabled. -/
def covFreeF : FunctionState :=
  { vars := [{ user_dimension := 1, solver_dimension := 1, address := 0,
               global_index := 0, is_constant := false, cov := some idCov }],
    number_of_scalars := 1, number_of_constants := 0, constant := 0,
    terms := [{ term := oneDTerm, added_variables_indices := [0] }],
    hessian_is_enabled := true }

theorem evaluate_hessian_with_transform_errors_witness :
    evaluateDense covFreeF exampleMem [1] = .error FunctionError.UnsupportedOperation ∧
    evaluateSparse covFreeF exampleMem [1] = .error FunctionError.UnsupportedOperation :=
  evaluate_hessian_with_transform_errors covFreeF exampleMem [1]
    { term := oneDTerm, added_variables_indices := [0] } 0
    (List.Mem.head _) (List.Mem.head _) rfl rfl rfl

/-- The same variable marked constant (still carrying `idCov`), bound to
the same term. -/
def covConstF : FunctionState :=
  { vars := [{ user_dimension := 1, solver_dimension := 1, address := 0,
               global_index := 0, is_constant := true, cov := some idCov }],
    number_of_scalars := 0, number_of_constants := 1, constant := 0,
    terms := [{ term := oneDTerm, added_variables_indices := [0] }],
    hessian_is_enabled := true }

/-- C8 counterexample.  A term binding whose argument variable carries a
change of variables but is constant does *not* make the Hessian-producing
evaluates fail: both the dense and the sparse overload succeed, because
the `UnsupportedOperation` throw sits behind the `!is_constant` test. -/
theorem evaluate_hessian_with_constant_transform_succeeds :
    (covConstF.vars.getD 0 default).cov.isSome = true ∧
    covConstF.terms.map (fun t => t.added_variables_indices) = [[0]] ∧
    isOkB (evaluateDense covConstF exampleMem []) = true ∧
    isOkB (evaluateSparse covConstF exampleMem []) = true := by decide

/-! ## C10: bounds of the interval evaluation -/

lemma gatherLoop_none_of_oob (f : FunctionState) (x : List IntervalQ) (term : Term)
    {vi : ℕ} (hoob : x.length ≤ (f.vars.getD vi default).global_index) :
    ∀ (indices : List ℕ) (k : ℕ), vi ∈ indices →
    gatherLoop f x term k indices = none
  | [], _, hmem => absurd hmem (List.not_mem_nil _)
  | a :: rest, k, hmem => by
    rw [gatherLoop]
    rcases List.mem_cons.mp hmem with rfl | htail
    · rw [if_neg]
      intro hcon
      exact absurd hcon.1 (Nat.not_lt.mpr hoob)
    · rw [gatherLoop_none_of_oob f x term hoob rest (k + 1) htail]
      by_cases hc : (f.vars.getD a default).global_index < x.length ∧
          (f.vars.getD a default).global_index + term.variable_dimension k ≤ x.length
      · rw [if_pos hc]
      · rw [if_neg hc]

lemma gatherLoop_isSome (f : FunctionState) (x : List IntervalQ) (term : Term) :
    ∀ (indices : List ℕ) (k0 : ℕ),
    (∀ p ∈ indices.enumFrom k0,
        (f.vars.getD p.2 default).global_index < x.length ∧
        (f.vars.getD p.2 default).global_index + term.variable_dimension p.1 ≤ x.length) →
    (gatherLoop f x term k0 indices).isSome = true
  | [], _, _ => rfl
  | vi :: rest, k0, h => by
    rw [gatherLoop]
    have hhead := h (k0, vi) (by rw [List.enumFrom_cons]; exact List.Mem.head _)
    rw [if_pos hhead]
    have htail := gatherLoop_isSome f x term rest (k0 + 1)
      (fun p hp => h p (by rw [List.enumFrom_cons]; exact List.Mem.tail _ hp))
    rcases hr : gatherLoop f x term (k0 + 1) rest with _ | tl
    · rw [hr] at htail; simp at htail
    · rfl

lemma evaluateInterval_step_none (f : FunctionState) (x : List IntervalQ) :
    ∀ (l : List AddedTerm),
    l.foldl (fun acc t => do
      let a ← acc
      let tv ← evalTermInterval f x t
      pure (a.add tv)) (none : Option IntervalQ) = none
  | [] => rfl
  | _ :: rest => evaluateInterval_step_none f x rest

lemma evaluateInterval_foldl_none (f : FunctionState) (x : List IntervalQ) :
    ∀ (l : List AddedTerm) (t : AddedTerm), t ∈ l → evalTermInterval f x t = none →
    ∀ (init : Option IntervalQ),
    l.foldl (fun acc t => do
      let a ← acc
      let tv ← evalTermInterval f x t
      pure (a.add tv)) init = none
  | [], _, hmem, _, _ => absurd hmem (List.not_mem_nil _)
  | u :: rest, t, hmem, hnone, init => by
    rcases List.mem_cons.mp hmem with rfl | htail
    · rw [List.foldl_cons]
      have : (do
          let a ← init
          let tv ← evalTermInterval f x t
          pure (a.add tv)) = (none : Option IntervalQ) := by
        cases init <;> simp [hnone]
      rw [this]
      exact evaluateInterval_step_none f x rest
    · rw [List.foldl_cons]
      exact evaluateInterval_foldl_none f x rest t htail hnone _

lemma evaluateInterval_foldl_some (f : FunctionState) (x : List IntervalQ) :
    ∀ (l : List AddedTerm),
    (∀ t ∈ l, (evalTermInterval f x t).isSome = true) →
    ∀ (a : IntervalQ),
    (l.foldl (fun acc t => do
      let a ← acc
      let tv ← evalTermInterval f x t
      pure (a.add tv)) (some a)).isSome = true
  | [], _, _ => rfl
  | u :: rest, h, a => by
    rw [List.foldl_cons]
    have hu := h u (List.Mem.head _)
    rcases he : evalTermInterval f x u with _ | tv
    · rw [he] at hu; simp at hu
    · exact evaluateInterval_foldl_some f x rest
        (fun t ht => h t (List.Mem.tail _ ht)) (a.add tv)

/-- C10.  The interval `evaluate` reads the input vector at every bound
variable's global index, constant variables included.  First part: if some
term binds a variable whose global index is at or beyond the input length
(as a constant variable's index is, after re-indexing, when the input only
covers the free scalars), the evaluation goes out of range (`none`).
Second part: an input covering every bound variable's index range — as one
of length free + constant scalars does in a canonically indexed registry —
makes the evaluation succeed. -/
theorem evaluate_interval_bounds :
    (∀ (f : FunctionState) (x : List IntervalQ) (t : AddedTerm) (vi : ℕ),
        t ∈ f.terms → vi ∈ t.added_variables_indices →
        x.length ≤ (f.vars.getD vi default).global_index →
        evaluateInterval f x = none) ∧
    (∀ (f : FunctionState) (x : List IntervalQ),
        (∀ t ∈ f.terms, ∀ p ∈ t.added_variables_indices.enum,
            (f.vars.getD p.2 default).global_index < x.length ∧
            (f.vars.getD p.2 default).global_index +
              t.term.variable_dimension p.1 ≤ x.length) →
        (evaluateInterval f x).isSome = true) := by
  constructor
  · intro f x t vi ht hvi hoob
    unfold evaluateInterval
    apply evaluateInterval_foldl_none f x f.terms t ht
    unfold evalTermInterval gatherTermIntervals
    rw [gatherLoop_none_of_oob f x t.term hoob t.added_variables_indices 0 hvi]
    rfl
  · intro f x h
    unfold evaluateInterval
    apply evaluateInterval_foldl_some f x f.terms
    intro t ht
    unfold evalTermInterval gatherTermIntervals
    have := gatherLoop_isSome f x t.term t.added_variables_indices 0 (h t ht)
    rcases hr : gatherLoop f x t.term 0 t.added_variables_indices with _ | r
    · rw [hr] at this; simp at this
    · rfl

/-- One free scalar (index 0) and one constant scalar (index 1), both
bound to a term of arity 2. -/
def intervalF : FunctionState :=
  { vars := [{ user_dimension := 1, solver_dimension := 1, address := 0,
               global_index := 0, is_constant := false, cov := none },
             { user_dimension := 1, solver_dimension := 1, address := 10,
               global_index := 1, is_constant := true, cov := none }],
    number_of_scalars := 1, number_of_constants := 1, constant := 0,
    terms := [{ term := pairTerm, added_variables_indices := [0, 1] }],
    hessian_is_enabled := true }

theorem evaluate_interval_bounds_witness :
    evaluateInterval intervalF [⟨0, 1⟩] = none ∧
    (evaluateInterval intervalF [⟨0, 1⟩, ⟨2, 3⟩]).isSome = true :=
  ⟨evaluate_interval_bounds.1 intervalF [⟨0, 1⟩]
      { term := pairTerm, added_variables_indices := [0, 1] } 1
      (List.Mem.head _) (List.Mem.tail _ (List.Mem.head _)) (by decide),
   evaluate_interval_bounds.2 intervalF [⟨0, 1⟩, ⟨2, 3⟩] (by decide)⟩

/-! ## C5: sparse and dense Hessian assembly agree -/

/-- Apply a triplet list to a matrix, one `+=` per triplet. -/
def applyTriplets (M : MatQ) (ts : List (ℕ × ℕ × ℚ)) : MatQ :=
  ts.foldl (fun M p => addEntry M p.1 p.2.1 p.2.2) M

lemma applyTriplets_entry : ∀ (ts : List (ℕ × ℕ × ℚ)) (M : MatQ) (i j : ℕ),
    applyTriplets M ts i j = M i j + coalesce ts i j
  | [], M, i, j => by simp [applyTriplets, coalesce]
  | p :: ts, M, i, j => by
    have step : applyTriplets M (p :: ts) = applyTriplets (addEntry M p.1 p.2.1 p.2.2) ts := rfl
    rw [step, applyTriplets_entry ts _ i j]
    unfold addEntry coalesce
    simp only [List.map_cons, List.sum_cons]
    by_cases hij : i = p.1 ∧ j = p.2.1
    · rw [if_pos hij, if_pos ⟨hij.1.symm, hij.2.symm⟩]
      ring
    · rw [if_neg hij, if_neg (fun hc => hij ⟨hc.1.symm, hc.2.symm⟩)]
      ring

lemma applyTriplets_append (M : MatQ) (ts1 ts2 : List (ℕ × ℕ × ℚ)) :
    applyTriplets M (ts1 ++ ts2) = applyTriplets (applyTriplets M ts1) ts2 :=
  List.foldl_append _ _ _ _

lemma foldl_eq_applyTriplets {α : Type} (step : MatQ → α → MatQ)
    (g : α → List (ℕ × ℕ × ℚ)) (h : ∀ (M : MatQ) (a : α), step M a = applyTriplets M (g a)) :
    ∀ (l : List α) (M : MatQ), l.foldl step M = applyTriplets M (l.flatMap g)
  | [], _ => rfl
  | a :: l, M => by
    rw [List.foldl_cons, h, foldl_eq_applyTriplets step g h l, List.flatMap_cons,
      applyTriplets_append]

lemma flatMap_singleton_eq_map (h : α → β) : ∀ (l : List α),
    l.flatMap (fun a => [h a]) = l.map h
  | [] => rfl
  | a :: l => by
    rw [List.flatMap_cons, List.map_cons, flatMap_singleton_eq_map h l]
    rfl

lemma foldl_addEntry_eq (r : ℕ) (c : ℕ → ℕ) (v : ℕ → ℚ) :
    ∀ (l : List ℕ) (M : MatQ),
    l.foldl (fun M j => addEntry M r (c j) (v j)) M =
      applyTriplets M (l.map (fun j => (r, c j, v j)))
  | [], _ => rfl
  | j :: l, M => foldl_addEntry_eq r c v l (addEntry M r (c j) (v j))

lemma termDense_eq_applyTriplets (f : FunctionState) (t : AddedTerm)
    (H : ℕ → ℕ → ℕ → ℕ → ℚ) (M : MatQ) :
    termDenseHessianAdd f t H M = applyTriplets M (termTriplets f t H) := by
  unfold termDenseHessianAdd termTriplets
  refine foldl_eq_applyTriplets _ _ (fun M var0 => ?_) _ M
  dsimp only
  by_cases h0 : (f.vars.getD (t.added_variables_indices.getD var0 0) default).is_constant
  · rw [if_pos h0, if_pos h0]
    rfl
  · rw [if_neg h0, if_neg h0]
    refine foldl_eq_applyTriplets _ _ (fun M var1 => ?_) _ M
    dsimp only
    by_cases h1 : (f.vars.getD (t.added_variables_indices.getD var1 0) default).is_constant
    · rw [if_pos h1, if_pos h1]
      rfl
    · rw [if_neg h1, if_neg h1]
      refine foldl_eq_applyTriplets _ _ (fun M i => ?_) _ M
      exact foldl_addEntry_eq _ _ _ _ M

lemma scatterVar_dense_eq_sparse (x : List ℚ) (ns : ℕ) (storage : List ℚ)
    (v : AddedVariable) (row : List ℚ) (hcov : v.cov = none) :
    scatterVarGradDense x ns storage v row = scatterVarGradSparse storage v row := by
  unfold scatterVarGradDense scatterVarGradSparse
  rw [hcov]

lemma termGradStep_dense_eq_sparse (f : FunctionState) (x : List ℚ)
    (locals : List (List ℚ)) (hcov : ∀ vi, (f.vars.getD vi default).cov = none)
    (acc : ℚ × List ℚ) (t : AddedTerm) :
    termGradStep f (scatterVarGradDense x f.number_of_scalars) locals acc t =
      termGradStep f scatterVarGradSparse locals acc t := by
  unfold termGradStep
  refine congrArg (fun s => (_, s)) ?_
  exact List.foldl_ext _ _ _ (fun st p _ =>
    scatterVar_dense_eq_sparse x f.number_of_scalars st _ _ (hcov p.2))

lemma covAll_of_mem {f : FunctionState} (hcov : ∀ v ∈ f.vars, v.cov.isNone = true) :
    ∀ vi, (f.vars.getD vi default).cov = none := by
  intro vi
  rw [List.getD_eq_getElem?_getD]
  rcases hv : f.vars[vi]? with _ | w
  · rfl
  · have hw : w ∈ f.vars := by
      apply List.get?_mem
      rw [List.get?_eq_getElem?]
      exact hv
    have := hcov w hw
    rcases hc : w.cov with _ | c
    · exact hc
    · rw [hc] at this; simp at this

lemma hasNonConstCov_false {f : FunctionState}
    (hcov : ∀ vi, (f.vars.getD vi default).cov = none) :
    hasNonConstCovBoundVar f = false := by
  unfold hasNonConstCovBoundVar
  rw [List.any_eq_false]
  intro t _
  rw [Bool.not_eq_true, List.any_eq_false]
  intro vi _
  show ¬(!(f.vars.getD vi default).is_constant &&
    (f.vars.getD vi default).cov.isSome) = true
  rw [hcov vi]
  simp

/-- C5.  On a function without change-of-variables transforms and with
Hessians enabled, the sparse-Hessian and dense-Hessian `evaluate`
overloads agree: same value, same gradient, and the coalesced sparse
entry at every coordinate equals the dense entry. -/
theorem sparse_and_dense_hessian_agree (f : FunctionState) (mem : Mem)
    (x : List ℚ) (hcov : ∀ v ∈ f.vars, v.cov.isNone = true)
    (hen : f.hessian_is_enabled = true) :
    ∃ value gradient ts D,
      evaluateSparse f mem x = .ok (value, gradient, ts) ∧
      evaluateDense f mem x = .ok (value, gradient, D) ∧
      ∀ i j, coalesce ts i j = D i j := by
  have hcov' := covAll_of_mem hcov
  have hnc := hasNonConstCov_false hcov'
  set locals := copy_global_to_local x mem f.vars with hlocals
  have hgrad : f.terms.foldl (termGradStep f (scatterVarGradDense x f.number_of_scalars) locals)
        (f.constant, List.replicate (f.number_of_scalars + f.number_of_constants) 0) =
      f.terms.foldl (termGradStep f scatterVarGradSparse locals)
        (f.constant, List.replicate (f.number_of_scalars + f.number_of_constants) 0) :=
    List.foldl_ext _ _ _ (fun acc t _ => termGradStep_dense_eq_sparse f x locals hcov' acc t)
  set vg := f.terms.foldl (termGradStep f scatterVarGradSparse locals)
    (f.constant, List.replicate (f.number_of_scalars + f.number_of_constants) 0) with hvg
  refine ⟨vg.1, vg.2.take f.number_of_scalars,
    f.terms.flatMap (fun t => termTriplets f t (termHessianBlocks locals t)),
    f.terms.foldl (fun M t => termDenseHessianAdd f t (termHessianBlocks locals t) M) zeroMat,
    ?_, ?_, ?_⟩
  · unfold evaluateSparse
    rw [hen]
    simp only [Bool.true_eq_false, if_false]
    rw [← hlocals, hnc]
    simp only [Bool.false_eq_true, if_false]
  · unfold evaluateDense
    rw [hen]
    simp only [Bool.true_eq_false, if_false]
    rw [← hlocals, hnc]
    simp only [Bool.false_eq_true, if_false]
    rw [hgrad]
  · intro i j
    rw [foldl_eq_applyTriplets
        (fun M t => termDenseHessianAdd f t (termHessianBlocks locals t) M)
        (fun t => termTriplets f t (termHessianBlocks locals t))
        (fun M t => termDense_eq_applyTriplets f t _ M) f.terms zeroMat,
      applyTriplets_entry]
    show coalesce _ i j = (0 : ℚ) + coalesce _ i j
    rw [zero_add]

theorem sparse_and_dense_hessian_agree_witness :
    ∃ value gradient ts D,
      evaluateSparse exampleF exampleMem [3, 4] = .ok (value, gradient, ts) ∧
      evaluateDense exampleF exampleMem [3, 4] = .ok (value, gradient, D) ∧
      ∀ i j, coalesce ts i j = D i j :=
  sparse_and_dense_hessian_agree exampleF exampleMem [3, 4] (by decide) rfl

/-! ## C2/C4: the serialized per-term variable records -/

/-- A function reached through the public interface: `add_variable(&u, 2)`
then `add_term(oneDTerm, {&w})`, which auto-registers the 1-dimensional
`w`.  Registry: `u` at registry index 0 with global offset 0, `w` at
registry index 1 with global offset 2. -/
def twoVarF : FunctionState :=
  (add_term (okOr (add_variable emptyFunction 0 2)) oneDTerm [100]).1

/-- Unwrap a serialization that is known to succeed. -/
def serOr (r : Except FunctionError SerializedFunction) : SerializedFunction :=
  match r with
  | .ok s => s
  | .error _ =>
    { num_terms := 0, num_variables := 0, num_scalars := 0, constant := 0,
      variable_dimensions := [], x := [], term_records := [] }

def twoVarSer : SerializedFunction := serOr (write_to_stream twoVarF exampleMem)

/-- C2.  `write_to_stream` accepts `twoVarF`, and the per-term record it
writes for the single term is `[1]` — the variable's registry index — while
the bound variable's global scalar offset is 2.  The write loop emits
`added_variables_indices` although `read_from_stream` consumes the numbers
as offsets into the packed scalar array (`&user_space->at(offset)`). -/
theorem write_to_stream_emits_registry_indices :
    isOkB (write_to_stream twoVarF exampleMem) = true ∧
    twoVarSer.term_records.map (fun r => r.offsets) = [[1]] ∧
    twoVarF.terms.map (fun t =>
      t.added_variables_indices.map (fun vi =>
        (twoVarF.vars.getD vi default).global_index)) = [[2]] := by decide

/-- `read_from_stream ∘ write_to_stream`, with an identity term factory. -/
def roundtripOr (f : FunctionState) (mem : Mem) : FunctionState :=
  match write_to_stream f mem with
  | .error _ => emptyFunction
  | .ok s =>
    match read_from_stream s (fun _ blob => blob) with
    | .error _ => emptyFunction
    | .ok (g, _) => g

/-- Whether both serialization directions succeed. -/
def roundtripOk (f : FunctionState) (mem : Mem) : Bool :=
  match write_to_stream f mem with
  | .error _ => false
  | .ok s =>
    match read_from_stream s (fun _ blob => blob) with
    | .error _ => false
    | .ok _ => true

/-- C4.  The serialization round-trip on `twoVarF` succeeds but does not
reproduce the function: reading binds the term at scalar offset 1 — the
registry index the write loop emitted — which is the *interior* of the
2-dimensional variable, so an unknown address is auto-registered and the
reconstruction has 3 variables and 4 scalars instead of 2 and 3. -/
theorem read_write_roundtrip_not_identity :
    roundtripOk twoVarF exampleMem = true ∧
    twoVarF.vars.length = 2 ∧
    twoVarF.number_of_scalars = 3 ∧
    (roundtripOr twoVarF exampleMem).vars.length = 3 ∧
    (roundtripOr twoVarF exampleMem).number_of_scalars = 4 := by decide

end spii
